import Mathlib

/-!
Verification of the discovery-and-ranking pipeline of `src/github_crawler.py`
(class `GitHubCrawler`): quality scoring (`_calculate_project_score`), the
quality-threshold filter (`_filter_projects`), custom predicate filtering with
one-shot relaxation (`_apply_custom_filters` and the Stage-B logic inlined in
`search_repositories`), diversity selection (`_ensure_diversity`), and the
response handling of `search_repositories`.

Modelling conventions: Python floats are idealised as `ℚ`; timezone-aware UTC
datetimes are instants measured in whole seconds (`Int`), so that Python
`(a - b).days` is the floored quotient `(a - b).fdiv 86400`; GitHub count
fields (stars, forks, open issues, size) are `Nat`; Python exceptions are the
`Except PyErr` monad.
-/

/-- A candidate repository record after the fixed field mapping in
`search_repositories` (`full_name → name`, `html_url → url`, `description`,
`stargazers_count → stars`, `forks_count → forks`, `pushed_at → updated_at`,
`created_at`, `language`, `topics`, `size`, `open_issues_count → open_issues`). -/
structure Project where
  name : String
  url : String
  description : Option String
  stars : Nat
  forks : Nat
  updatedAt : Int
  createdAt : Int
  language : Option String
  topics : List String
  size : Nat
  openIssues : Nat
  deriving Repr, DecidableEq

/-- Python `(a - b).days` on timezone-aware datetimes: the floored number of
whole days in the signed difference, timestamps in seconds. -/
def daysBetween (a b : Int) : Int := (a - b).fdiv 86400

/-- Activity sub-score (35 points) of `_calculate_project_score`:
`35 * (1 - min(update_days / 7, 1))`. -/
def activityScore (now : Int) (p : Project) : ℚ :=
  35 * (1 - min ((daysBetween now p.updatedAt : ℚ) / 7) 1)

/-- Growth-potential sub-score (25 points): `25 * min(forks / stars * 2, 1)`
when `stars > 0`, else `0`. -/
def growthScore (p : Project) : ℚ :=
  if 0 < p.stars then 25 * min ((p.forks : ℚ) / (p.stars : ℚ) * 2) 1 else 0

/-- Community-maintenance sub-scores (20 points), appended to the score list
only when `stars > 0`: `20 * (1 - min(|open_issues / stars - 0.1| * 5, 1))`. -/
def maintenanceScores (p : Project) : List ℚ :=
  if 0 < p.stars then
    [20 * (1 - min (|(p.openIssues : ℚ) / (p.stars : ℚ) - 1 / 10| * 5) 1)]
  else []

/-- Maturity sub-score (20 points): project age (`10 * min(age_days / 730, 1)`),
topic completeness (`5 * min(len(topics) / 5, 1)`) and description completeness
(`5 * min(len(description or "") / 100, 1)`). -/
def maturityScore (now : Int) (p : Project) : ℚ :=
  10 * min ((daysBetween now p.createdAt : ℚ) / 730) 1
    + 5 * min ((p.topics.length : ℚ) / 5) 1
    + 5 * min (((p.description.getD "").length : ℚ) / 100) 1

/-- `_calculate_project_score`: the sum of the collected sub-scores with the
total clamped to 100 (`min(total_score, 100)`). -/
def calculateProjectScore (now : Int) (p : Project) : ℚ :=
  min (([activityScore now p, growthScore p] ++ maintenanceScores p
      ++ [maturityScore now p]).sum) 100

/-- Python `round(x, 2)` idealised over `ℚ`: round `100 * x` to the nearest
integer, ties to even, then divide by 100. -/
def roundHalfEven (q : ℚ) : Int :=
  if q - ⌊q⌋ < 1 / 2 then ⌊q⌋
  else if 1 / 2 < q - ⌊q⌋ then ⌊q⌋ + 1
  else if ⌊q⌋ % 2 = 0 then ⌊q⌋ else ⌊q⌋ + 1

/-- Two-decimal rounding used when `_filter_projects` attaches the score. -/
def round2 (q : ℚ) : ℚ := (roundHalfEven (q * 100) : ℚ) / 100

/-- A project record carrying the attached `quality_score` field. -/
structure Scored where
  proj : Project
  qualityScore : ℚ
  deriving Repr, DecidableEq

/-- The loop body of `_filter_projects`: the projects whose score reaches
`min_score`, each with `round(score, 2)` attached, in input order. -/
def stageASurvivors (now : Int) (minScore : ℚ) (ps : List Project) : List Scored :=
  ps.filterMap (fun p =>
    if minScore ≤ calculateProjectScore now p then
      some ⟨p, round2 (calculateProjectScore now p)⟩
    else none)

/-- The comparator realising Python
`sorted(key=lambda x: (updated_at, quality_score), reverse=True)`:
`a` may precede `b` iff the key of `b` is lexicographically at most that of `a`. -/
def filterLe (a b : Scored) : Bool :=
  b.proj.updatedAt < a.proj.updatedAt ||
    (b.proj.updatedAt == a.proj.updatedAt && b.qualityScore ≤ a.qualityScore)

/-- `_filter_projects`: keep projects scoring at least `min_score`
(default `60.0`), attach the rounded score, then stable-sort with key
`(updated_at, quality_score)` descending. -/
def filterProjects (now : Int) (ps : List Project) (minScore : ℚ := 60) : List Scored :=
  (stageASurvivors now minScore ps).mergeSort filterLe

/-- The four built-in default predicates of `_apply_custom_filters`:
description is not `None`, at least 2 topics, project age at least 7 days,
last update at most 7 days ago. -/
def defaultFilters (now : Int) : List (Scored → Bool) :=
  [fun s => s.proj.description.isSome,
   fun s => 2 ≤ s.proj.topics.length,
   fun s => 7 ≤ daysBetween now s.proj.createdAt,
   fun s => daysBetween now s.proj.updatedAt ≤ 7]

/-- `_apply_custom_filters`: Python `if not filters` replaces a `None` argument
or an empty list by the built-in defaults; then each predicate is applied in
order, each pass keeping only the records it accepts. -/
def applyCustomFilters (now : Int) (ps : List Scored)
    (fs : Option (List (Scored → Bool))) : List Scored :=
  let actual := match fs with
    | none => defaultFilters now
    | some [] => defaultFilters now
    | some gs => gs
  actual.foldl (fun acc f => acc.filter f) ps

/-- The strict Stage-B predicates built inside `search_repositories`:
description is not `None` and longer than 30 characters, at least 1 topic,
forks at least 5 percent of stars. -/
def strictFilters : List (Scored → Bool) :=
  [fun s => s.proj.description.isSome && 30 < (s.proj.description.getD "").length,
   fun s => 1 ≤ s.proj.topics.length,
   fun s => (s.proj.stars : ℚ) * (5 / 100) ≤ (s.proj.forks : ℚ)]

/-- The relaxed Stage-B predicates: description is not `None`, and stars at
least the configured `min_stars`. -/
def relaxedFilters (minStars : Nat) : List (Scored → Bool) :=
  [fun s => s.proj.description.isSome,
   fun s => minStars ≤ s.proj.stars]

/-- Stage B of `search_repositories`: the strict custom filters over the
Stage-A output; when fewer than 3 survive, the relaxed filters are applied
once to the same Stage-A output, discarding the strict result. -/
def stageB (now : Int) (minStars : Nat) (quality : List Scored) : List Scored :=
  let filtered := applyCustomFilters now quality (some strictFilters)
  if filtered.length < 3 then
    applyCustomFilters now quality (some (relaxedFilters minStars))
  else filtered

/-- The grouping key of `_ensure_diversity`: Python `language or 'Unknown'`
(both `None` and the falsy empty string map to `Unknown`). -/
def langOf (s : Scored) : String :=
  match s.proj.language with
  | none => "Unknown"
  | some l => if l = "" then "Unknown" else l

/-- The keys of `language_groups` in Python dict insertion order: the distinct
language keys in order of first occurrence. -/
def languagesOf (ps : List Scored) : List String :=
  ps.foldl (fun acc s => if langOf s ∈ acc then acc else acc ++ [langOf s]) []

/-- The group of records sharing a language key, in input order. -/
def langGroup (ps : List Scored) (lang : String) : List Scored :=
  ps.filter (fun s => langOf s == lang)

/-- Total star count of a language group, the ranking key for popular languages. -/
def groupStars (ps : List Scored) (lang : String) : Nat :=
  ((langGroup ps lang).map (fun s => s.proj.stars)).sum

/-- Python `sorted(key=lambda p: p[quality_score], reverse=True)`: stable
descending sort by attached quality score. -/
def sortByScoreDesc (l : List Scored) : List Scored :=
  l.mergeSort (fun a b => b.qualityScore ≤ a.qualityScore)

/-- `sorted_langs`: the language keys ranked by total group stars, descending. -/
def langsByStars (ps : List Scored) : List String :=
  (languagesOf ps).mergeSort (fun a b => groupStars ps b ≤ groupStars ps a)

/-- `projects_per_language`: with at most `N` groups every group gets
`max(1, N // group_count)` slots; with more than `N` groups exactly the top
`N` languages by total stars get 1 slot each and the rest get 0. -/
def allocation (N : Nat) (ps : List Scored) (lang : String) : Nat :=
  if (languagesOf ps).length ≤ N then max 1 (N / (languagesOf ps).length)
  else if lang ∈ (langsByStars ps).take N then 1 else 0

/-- `diverse_projects` before the fill step: for each language with a positive
slot count, the top-`count` records of the group by quality score descending. -/
def diversePicks (N : Nat) (ps : List Scored) : List Scored :=
  (languagesOf ps).flatMap (fun lang =>
    if 0 < allocation N ps lang then
      (sortByScoreDesc (langGroup ps lang)).take (allocation N ps lang)
    else [])

/-- The fill step: the highest-scoring records whose url was not already
selected, up to the remaining `max_results - len(diverse_projects)` slots. -/
def fillPicks (N : Nat) (ps : List Scored) : List Scored :=
  (sortByScoreDesc (ps.filter (fun p =>
      !(((diversePicks N ps).map (fun q => q.proj.url)).contains p.proj.url)))).take
    (N - (diversePicks N ps).length)

/-- `_ensure_diversity`: empty input short-circuits to `[]`; otherwise the
per-language picks plus the fill, sorted by quality score descending. -/
def ensureDiversity (N : Nat) (ps : List Scored) : List Scored :=
  if ps.isEmpty then []
  else sortByScoreDesc (diversePicks N ps ++ fillPicks N ps)

/-- The Python exceptions that can escape the embedded pipeline. -/
inductive PyErr where
  | keyError (key : String)
  | typeError (msg : String)
  | statisticsError
  | runtimeError (msg : String)
  | httpError (status : Nat)
  deriving Repr, DecidableEq

/-- Python `statistics.mean`: raises `StatisticsError` on an empty list. -/
def pyMean (l : List ℚ) : Except PyErr ℚ :=
  match l with
  | [] => .error .statisticsError
  | _ => .ok (l.sum / l.length)

/-- A raw search-API item: each expected key may be missing (`none`);
`description` and `language` are nullable when present; `topics` is read with
`item.get("topics", [])` and so never raises. -/
structure RawItem where
  full_name : Option String
  html_url : Option String
  description : Option (Option String)
  stargazers_count : Option Nat
  forks_count : Option Nat
  pushed_at : Option Int
  created_at : Option Int
  language : Option (Option String)
  topics : Option (List String)
  size : Option Nat
  open_issues_count : Option Nat
  deriving Repr, DecidableEq

/-- Python `item[key]`: `KeyError` when the key is missing. -/
def getItem (key : String) (v : Option α) : Except PyErr α :=
  match v with
  | some x => .ok x
  | none => .error (.keyError key)

/-- The dict comprehension of `search_repositories` mapping one raw item to a
`Project`; keys are read in source order and a missing key raises `KeyError`. -/
def mapItem (item : RawItem) : Except PyErr Project := do
  let name ← getItem "full_name" item.full_name
  let url ← getItem "html_url" item.html_url
  let description ← getItem "description" item.description
  let stars ← getItem "stargazers_count" item.stargazers_count
  let forks ← getItem "forks_count" item.forks_count
  let updatedAt ← getItem "pushed_at" item.pushed_at
  let createdAt ← getItem "created_at" item.created_at
  let language ← getItem "language" item.language
  let topics := item.topics.getD []
  let size ← getItem "size" item.size
  let openIssues ← getItem "open_issues_count" item.open_issues_count
  pure { name, url, description, stars, forks, updatedAt, createdAt,
         language, topics, size, openIssues }

/-- The configuration fields the core pipeline reads. -/
structure Config where
  minStars : Nat
  maxResults : Nat
  deriving Repr, DecidableEq

/-- The parts of the search response the core inspects: HTTP status, the
optional `X-RateLimit-Reset` header, and the `items` array. -/
structure HttpResponse where
  status : Nat
  rateLimitReset : Option Int
  items : List RawItem
  deriving Repr, DecidableEq

/-- The rate-limit branch of `search_repositories`: on status 403 the code
runs `int(response.headers.get('X-RateLimit-Reset'))`, which is a `TypeError`
when the header is absent (`int(None)`), and otherwise raises
`RuntimeError` with a fixed message (the reset time goes only to the log). -/
def rateLimitCheck (status : Nat) (resetHeader : Option Int) : Except PyErr Unit :=
  if status == 403 then
    match resetHeader with
    | none => .error (.typeError
        "int() argument must be a string, a bytes-like object or a real number, not NoneType")
    | some _ => .error (.runtimeError "GitHub API rate limited")
  else .ok ()

/-- Python `response.raise_for_status()`: any status of 400 or above raises. -/
def raiseForStatus (status : Nat) : Except PyErr Unit :=
  if 400 ≤ status then .error (.httpError status) else .ok ()

/-- The post-fetch pipeline of `search_repositories`: Stage-A quality filter
(default threshold 60), Stage B with one-shot relaxation, diversity selection,
the average-quality log line (an unguarded `statistics.mean` call), then
truncation to `max_results`. -/
def processProjects (now : Int) (cfg : Config) (projects : List Project) :
    Except PyErr (List Scored) := do
  let quality := filterProjects now projects
  let finalProjects := ensureDiversity cfg.maxResults (stageB now cfg.minStars quality)
  let _ ← pyMean (finalProjects.map (fun s => s.qualityScore))
  pure (finalProjects.take cfg.maxResults)

/-- `search_repositories` from the received response onwards: rate-limit
check, `raise_for_status`, field mapping of every item, then the processing
pipeline; a single `requests.get` happens before all of this, never a retry. -/
def searchRepositories (now : Int) (cfg : Config) (resp : HttpResponse) :
    Except PyErr (List Scored) := do
  let _ ← rateLimitCheck resp.status resp.rateLimitReset
  let _ ← raiseForStatus resp.status
  let projects ← resp.items.mapM mapItem
  processProjects now cfg projects

/-! ### Concrete records used by counterexamples and witnesses -/

/-- A minimal base record; concrete records below override individual fields. -/
def emptyProject : Project :=
  { name := "p", url := "u", description := none, stars := 0, forks := 0,
    updatedAt := 0, createdAt := 0, language := none, topics := [], size := 0,
    openIssues := 0 }

/-- A candidate whose `created_at` lies 10000 days in the future of instant 0. -/
def futureProject : Project := { emptyProject with createdAt := 864000000 }

/-- A well-behaved candidate: pushed at instant 0, created 730 days earlier,
100 stars, 50 forks, 10 open issues, 5 topics, a 20-character description.
Its quality score at instant 0 is exactly 96. -/
def richProject : Project :=
  { name := "p", url := "u1", description := some "aaaaaaaaaaaaaaaaaaaa",
    stars := 100, forks := 50, updatedAt := 0, createdAt := -63072000,
    language := some "Python", topics := ["a", "b", "c", "d", "e"], size := 1,
    openIssues := 10 }

/-- Like `richProject` but with no description (score 95 at instant 0): it
passes Stage A yet fails both the strict and the relaxed description filter. -/
def noDescProject : Project :=
  { richProject with url := "u3", description := none }

/-- The raw item whose field mapping yields exactly the given project. -/
def rawOf (p : Project) : RawItem :=
  { full_name := some p.name, html_url := some p.url,
    description := some p.description, stargazers_count := some p.stars,
    forks_count := some p.forks, pushed_at := some p.updatedAt,
    created_at := some p.createdAt, language := some p.language,
    topics := some p.topics, size := some p.size,
    open_issues_count := some p.openIssues }

/-- A raw item missing the `full_name` key (all other keys present). -/
def badItem : RawItem :=
  { rawOf emptyProject with full_name := none }

/-! ### Bounds on the scoring sub-functions -/

lemma qmin_unit_bounds {x : ℚ} (hx : 0 ≤ x) : 0 ≤ min x 1 ∧ min x 1 ≤ 1 :=
  ⟨le_min hx zero_le_one, min_le_right x 1⟩

lemma activityScore_bounds {now : Int} {p : Project} (h : p.updatedAt ≤ now) :
    0 ≤ activityScore now p ∧ activityScore now p ≤ 35 := by
  have hd : (0 : ℤ) ≤ daysBetween now p.updatedAt :=
    Int.fdiv_nonneg (by omega) (by norm_num)
  have hd' : (0 : ℚ) ≤ (daysBetween now p.updatedAt : ℚ) := by exact_mod_cast hd
  have hm := qmin_unit_bounds (x := (daysBetween now p.updatedAt : ℚ) / 7)
    (by positivity)
  unfold activityScore
  constructor
  · nlinarith [hm.1, hm.2]
  · nlinarith [hm.1, hm.2]

lemma growthScore_bounds (p : Project) : 0 ≤ growthScore p ∧ growthScore p ≤ 25 := by
  unfold growthScore
  split
  · have hx : (0 : ℚ) ≤ (p.forks : ℚ) / (p.stars : ℚ) * 2 := by positivity
    have hm := qmin_unit_bounds hx
    constructor
    · nlinarith [hm.1, hm.2]
    · nlinarith [hm.1, hm.2]
  · norm_num

lemma maintenanceSum_bounds (p : Project) :
    0 ≤ (maintenanceScores p).sum ∧ (maintenanceScores p).sum ≤ 20 := by
  unfold maintenanceScores
  split
  · have hx : (0 : ℚ) ≤ |(p.openIssues : ℚ) / (p.stars : ℚ) - 1 / 10| * 5 := by
      positivity
    have hm := qmin_unit_bounds hx
    simp only [List.sum_cons, List.sum_nil, add_zero]
    constructor
    · nlinarith [hm.1, hm.2]
    · nlinarith [hm.1, hm.2]
  · simp

lemma maturityScore_bounds {now : Int} {p : Project} (h : p.createdAt ≤ now) :
    0 ≤ maturityScore now p ∧ maturityScore now p ≤ 20 := by
  have hd : (0 : ℤ) ≤ daysBetween now p.createdAt :=
    Int.fdiv_nonneg (by omega) (by norm_num)
  have hd' : (0 : ℚ) ≤ (daysBetween now p.createdAt : ℚ) := by exact_mod_cast hd
  have h1 := qmin_unit_bounds (x := (daysBetween now p.createdAt : ℚ) / 730)
    (by positivity)
  have h2 := qmin_unit_bounds (x := (p.topics.length : ℚ) / 5) (by positivity)
  have h3 := qmin_unit_bounds (x := (((p.description.getD "").length : ℕ) : ℚ) / 100)
    (by positivity)
  unfold maturityScore
  constructor
  · nlinarith [h1.1, h1.2, h2.1, h2.2, h3.1, h3.2]
  · nlinarith [h1.1, h1.2, h2.1, h2.2, h3.1, h3.2]

lemma calculateProjectScore_eq (now : Int) (p : Project) :
    calculateProjectScore now p =
      min (activityScore now p + growthScore p + (maintenanceScores p).sum
        + maturityScore now p) 100 := by
  unfold calculateProjectScore
  have hsum : ([activityScore now p, growthScore p] ++ maintenanceScores p
      ++ [maturityScore now p]).sum =
      activityScore now p + growthScore p + (maintenanceScores p).sum
        + maturityScore now p := by
    simp [List.sum_append]
    ring
  rw [hsum]

/-- C1 counterexample: at instant 0, a candidate whose `created_at` lies 10000
days in the future receives a score below 0, so the score is not in [0, 100]
for timestamps at arbitrary distances from the current instant. -/
theorem C1_counterexample :
    ¬ (0 ≤ calculateProjectScore 0 futureProject ∧
        calculateProjectScore 0 futureProject ≤ 100) := by
  have hlt : calculateProjectScore 0 futureProject < 0 := by
    norm_num [calculateProjectScore, activityScore, growthScore,
      maintenanceScores, maturityScore, daysBetween, futureProject, emptyProject,
      show Int.fdiv 0 86400 = 0 from rfl,
      show Int.fdiv (0 - 864000000) 86400 = -10000 from rfl,
      show Int.fdiv (-864000000) 86400 = -10000 from rfl]
  intro hc
  exact absurd hc.1 (not_le.mpr hlt)

/-- C1 (amended): for every candidate whose timestamps do not lie in the
future of the current instant, `_calculate_project_score` returns a value in
[0, 100]; and when `stars = 0` the growth and maintenance sub-scores
contribute 0 with no division by zero. -/
theorem C1_amended (now : Int) (p : Project) (h1 : p.updatedAt ≤ now)
    (h2 : p.createdAt ≤ now) :
    0 ≤ calculateProjectScore now p ∧ calculateProjectScore now p ≤ 100 ∧
      (p.stars = 0 → growthScore p = 0 ∧ maintenanceScores p = []) := by
  have ha := activityScore_bounds h1
  have hg := growthScore_bounds p
  have hm := maintenanceSum_bounds p
  have hmat := maturityScore_bounds h2
  rw [calculateProjectScore_eq]
  refine ⟨le_min (by linarith) (by norm_num), min_le_right _ _, fun hs => ?_⟩
  constructor
  · unfold growthScore
    simp [hs]
  · unfold maintenanceScores
    simp [hs]

/-- C1 witness: the amended theorem applied to the zero-star base record at
instant 0. -/
theorem C1_witness :
    0 ≤ calculateProjectScore 0 emptyProject ∧
      calculateProjectScore 0 emptyProject ≤ 100 ∧
      (emptyProject.stars = 0 → growthScore emptyProject = 0 ∧
        maintenanceScores emptyProject = []) :=
  C1_amended 0 emptyProject (by decide) (by decide)

/-! ### Stage A: the quality-threshold filter -/

lemma filterLe_iff (a b : Scored) :
    filterLe a b = true ↔
      b.proj.updatedAt < a.proj.updatedAt ∨
        (b.proj.updatedAt = a.proj.updatedAt ∧ b.qualityScore ≤ a.qualityScore) := by
  simp [filterLe, Bool.or_eq_true, Bool.and_eq_true, decide_eq_true_eq, beq_iff_eq]

lemma filterLe_trans (a b c : Scored) (hab : filterLe a b = true)
    (hbc : filterLe b c = true) : filterLe a c = true := by
  rw [filterLe_iff] at hab hbc ⊢
  rcases hab with h1 | ⟨h1, h1q⟩ <;> rcases hbc with h2 | ⟨h2, h2q⟩
  · exact Or.inl (h2.trans h1)
  · exact Or.inl (h2 ▸ h1)
  · exact Or.inl (h1 ▸ h2)
  · exact Or.inr ⟨h2.trans h1, h2q.trans h1q⟩

lemma filterLe_total (a b : Scored) : (filterLe a b || filterLe b a) = true := by
  simp only [Bool.or_eq_true, filterLe_iff]
  rcases lt_trichotomy b.proj.updatedAt a.proj.updatedAt with h | h | h
  · exact Or.inl (Or.inl h)
  · rcases le_total b.qualityScore a.qualityScore with hq | hq
    · exact Or.inl (Or.inr ⟨h, hq⟩)
    · exact Or.inr (Or.inr ⟨h.symm, hq⟩)
  · exact Or.inr (Or.inl h)

lemma mem_stageASurvivors_iff {now : Int} {minScore : ℚ} {ps : List Project}
    {s : Scored} :
    s ∈ stageASurvivors now minScore ps ↔
      ∃ p ∈ ps, minScore ≤ calculateProjectScore now p ∧
        s = ⟨p, round2 (calculateProjectScore now p)⟩ := by
  unfold stageASurvivors
  rw [List.mem_filterMap]
  constructor
  · rintro ⟨p, hp, hf⟩
    by_cases hc : minScore ≤ calculateProjectScore now p
    · rw [if_pos hc] at hf
      exact ⟨p, hp, hc, (Option.some.injEq _ _ ▸ hf).symm⟩
    · rw [if_neg hc] at hf
      exact absurd hf (Option.noConfusion)
  · rintro ⟨p, hp, hc, rfl⟩
    exact ⟨p, hp, by rw [if_pos hc]⟩

/-- C7: `_filter_projects` retains exactly the candidates whose computed score
reaches `min_score` (the pipeline passes the default 60.0), attaches the
rounded score to each survivor, and sorts the result with last-push time as
the primary (descending) key and the quality score as the descending tiebreak
(the realized option of the spec's sorting policy choice). -/
theorem C7_theorem (now : Int) (minScore : ℚ) (ps : List Project) :
    (filterProjects now ps minScore).Perm (stageASurvivors now minScore ps) ∧
    (∀ s : Scored, s ∈ filterProjects now ps minScore ↔
      ∃ p ∈ ps, minScore ≤ calculateProjectScore now p ∧
        s = ⟨p, round2 (calculateProjectScore now p)⟩) ∧
    List.Pairwise (fun a b => b.proj.updatedAt < a.proj.updatedAt ∨
      (b.proj.updatedAt = a.proj.updatedAt ∧ b.qualityScore ≤ a.qualityScore))
      (filterProjects now ps minScore) := by
  refine ⟨List.mergeSort_perm _ _, fun s => ?_, ?_⟩
  · rw [filterProjects, List.mem_mergeSort, mem_stageASurvivors_iff]
  · exact (List.sorted_mergeSort filterLe_trans filterLe_total _).imp
      (fun h => (filterLe_iff _ _).mp h)

/-! ### Custom filters -/

lemma foldl_filter_eq_filter_all (fs : List (Scored → Bool)) (ps : List Scored) :
    fs.foldl (fun acc f => acc.filter f) ps =
      ps.filter (fun s => fs.all (fun f => f s)) := by
  induction fs generalizing ps with
  | nil => simp
  | cons f fs ih =>
    rw [List.foldl_cons, ih, List.filter_filter]
    refine List.filter_congr (fun s _ => ?_)
    rw [List.all_cons, Bool.and_comm]

/-- C10: passing an explicitly empty predicate list to `_apply_custom_filters`
behaves identically to passing no list at all, and both apply exactly the four
built-in default predicates rather than returning the list unfiltered. -/
theorem C10_theorem (now : Int) (ps : List Scored) :
    applyCustomFilters now ps (some []) = applyCustomFilters now ps none ∧
    applyCustomFilters now ps none =
      ps.filter (fun s => (defaultFilters now).all (fun f => f s)) := by
  exact ⟨rfl, foldl_filter_eq_filter_all _ _⟩

/-! ### Strict versus relaxed Stage-B predicates -/

/-- A zero-star record satisfying every strict predicate: 31-character
description, one topic, and forks (0) at least 5 percent of stars (0). -/
def strictOnlyRecord : Scored :=
  ⟨{ emptyProject with
      description := some "aaaaaaaaaaaaaaaaaaaaaaaaaaaaaaa",
      topics := ["a"] }, 0⟩

/-- C5 counterexample: with `min_stars = 100`, the zero-star record passes all
three strict predicates but fails the relaxed predicate set, so the relaxed
set is not superset-permissive over the strict one. -/
theorem C5_counterexample :
    strictFilters.all (fun f => f strictOnlyRecord) = true ∧
      (relaxedFilters 100).all (fun f => f strictOnlyRecord) = false := by
  constructor
  · norm_num [strictFilters, List.all_cons, strictOnlyRecord, emptyProject,
      show ("aaaaaaaaaaaaaaaaaaaaaaaaaaaaaaa" : String).length = 31 from rfl]
  · norm_num [relaxedFilters, List.all_cons, strictOnlyRecord, emptyProject]

/-- C5 (amended): every record that satisfies all three strict Stage-B
predicates and additionally has at least `min_stars` stars satisfies all
relaxed predicates; the extra star-count hypothesis is forced because the
relaxed set adds a `stars ≥ min_stars` test absent from the strict set. -/
theorem C5_amended (s : Scored) (minStars : Nat)
    (hstrict : strictFilters.all (fun f => f s) = true)
    (hstars : minStars ≤ s.proj.stars) :
    (relaxedFilters minStars).all (fun f => f s) = true := by
  simp only [strictFilters, List.all_cons, List.all_nil, Bool.and_true,
    Bool.and_eq_true] at hstrict
  simp only [relaxedFilters, List.all_cons, List.all_nil, Bool.and_true,
    Bool.and_eq_true]
  exact ⟨hstrict.1.1, by simpa using hstars⟩

/-- A record with 100 stars and 5 forks passing every strict predicate. -/
def strictAndStarsRecord : Scored :=
  ⟨{ emptyProject with
      description := some "aaaaaaaaaaaaaaaaaaaaaaaaaaaaaaa",
      topics := ["a"], stars := 100, forks := 5 }, 0⟩

/-- C5 witness: the amended implication evaluated on a concrete record with
`min_stars = 100`. -/
theorem C5_witness :
    (relaxedFilters 100).all (fun f => f strictAndStarsRecord) = true :=
  C5_amended strictAndStarsRecord 100
    (by norm_num [strictFilters, List.all_cons, strictAndStarsRecord, emptyProject,
      show ("aaaaaaaaaaaaaaaaaaaaaaaaaaaaaaa" : String).length = 31 from rfl])
    (by decide)

/-! ### Sublist structure of the filter stages -/

lemma filterChain_sublist (fs : List (Scored → Bool)) (ps : List Scored) :
    (fs.foldl (fun acc f => acc.filter f) ps).Sublist ps := by
  rw [foldl_filter_eq_filter_all]
  exact List.filter_sublist ps

lemma applyCustomFilters_sublist (now : Int) (ps : List Scored)
    (fs : Option (List (Scored → Bool))) :
    (applyCustomFilters now ps fs).Sublist ps := by
  unfold applyCustomFilters
  cases fs with
  | none => exact filterChain_sublist _ _
  | some gs =>
    cases gs with
    | nil => exact filterChain_sublist _ _
    | cons g gs => exact filterChain_sublist _ _

lemma stageB_sublist (now : Int) (minStars : Nat) (quality : List Scored) :
    (stageB now minStars quality).Sublist quality := by
  simp only [stageB]
  split
  · exact applyCustomFilters_sublist _ _ _
  · exact applyCustomFilters_sublist _ _ _

lemma stageASurvivors_map_proj_sublist (now : Int) (minScore : ℚ)
    (ps : List Project) :
    ((stageASurvivors now minScore ps).map (fun s => s.proj)).Sublist ps := by
  induction ps with
  | nil => simp [stageASurvivors]
  | cons p ps ih =>
    unfold stageASurvivors at ih ⊢
    rw [List.filterMap_cons]
    by_cases hc : minScore ≤ calculateProjectScore now p
    · rw [if_pos hc]
      exact List.Sublist.cons₂ p ih
    · rw [if_neg hc]
      exact List.Sublist.cons p ih

lemma mem_filterProjects_proj {now : Int} {minScore : ℚ} {ps : List Project}
    {s : Scored} (h : s ∈ filterProjects now ps minScore) : s.proj ∈ ps := by
  rw [filterProjects, List.mem_mergeSort] at h
  exact (stageASurvivors_map_proj_sublist now minScore ps).subset
    (List.mem_map_of_mem (fun s => s.proj) h)

/-! ### Language groups -/

lemma languagesOf_aux (qs : List Scored) (acc : List String) (l : String) :
    (l ∈ qs.foldl
        (fun acc s => if langOf s ∈ acc then acc else acc ++ [langOf s]) acc) ↔
      l ∈ acc ∨ ∃ s ∈ qs, langOf s = l := by
  induction qs generalizing acc with
  | nil => simp
  | cons q qs ih =>
    rw [List.foldl_cons]
    by_cases h : langOf q ∈ acc
    · rw [if_pos h, ih]
      constructor
      · rintro (ha | ⟨s, hs1, hs2⟩)
        · exact Or.inl ha
        · exact Or.inr ⟨s, List.mem_cons_of_mem _ hs1, hs2⟩
      · rintro (ha | ⟨s, hs1, hs2⟩)
        · exact Or.inl ha
        · rcases List.mem_cons.mp hs1 with rfl | hs1
          · exact Or.inl (hs2 ▸ h)
          · exact Or.inr ⟨s, hs1, hs2⟩
    · rw [if_neg h, ih]
      simp only [List.mem_append, List.mem_singleton, List.mem_cons,
        List.not_mem_nil, or_false]
      constructor
      · rintro ((ha | rfl) | ⟨s, hs1, hs2⟩)
        · exact Or.inl ha
        · exact Or.inr ⟨q, Or.inl rfl, rfl⟩
        · exact Or.inr ⟨s, Or.inr hs1, hs2⟩
      · rintro (ha | ⟨s, hs1, hs2⟩)
        · exact Or.inl (Or.inl ha)
        · rcases hs1 with rfl | hs1
          · exact Or.inl (Or.inr hs2.symm)
          · exact Or.inr ⟨s, hs1, hs2⟩

lemma mem_languagesOf {qs : List Scored} {l : String} :
    l ∈ languagesOf qs ↔ ∃ s ∈ qs, langOf s = l := by
  unfold languagesOf
  rw [languagesOf_aux]
  simp

lemma languagesOf_nodup_aux (qs : List Scored) (acc : List String)
    (h : acc.Nodup) :
    (qs.foldl
      (fun acc s => if langOf s ∈ acc then acc else acc ++ [langOf s]) acc).Nodup := by
  induction qs generalizing acc with
  | nil => simpa
  | cons q qs ih =>
    rw [List.foldl_cons]
    by_cases hq : langOf q ∈ acc
    · rw [if_pos hq]
      exact ih _ h
    · rw [if_neg hq]
      refine ih _ ?_
      rw [List.nodup_append]
      refine ⟨h, List.nodup_singleton _, ?_⟩
      intro a ha hax
      rw [List.mem_singleton] at hax
      exact hq (hax ▸ ha)

lemma languagesOf_nodup (qs : List Scored) : (languagesOf qs).Nodup :=
  languagesOf_nodup_aux qs [] List.nodup_nil

lemma mem_langGroup {qs : List Scored} {lang : String} {s : Scored} :
    s ∈ langGroup qs lang ↔ s ∈ qs ∧ langOf s = lang := by
  simp [langGroup, List.mem_filter]

lemma languagesOf_ne_nil {qs : List Scored} (h : qs ≠ []) :
    languagesOf qs ≠ [] := by
  cases qs with
  | nil => exact absurd rfl h
  | cons a l =>
    exact List.ne_nil_of_mem
      (mem_languagesOf.mpr ⟨a, List.mem_cons_self a l, rfl⟩)

/-! ### Subperm and count tools for the diversity stage -/

lemma sortByScoreDesc_perm (l : List Scored) : (sortByScoreDesc l).Perm l :=
  List.mergeSort_perm _ _

lemma take_sortByScoreDesc_subperm (n : Nat) (l : List Scored) :
    ((sortByScoreDesc l).take n).Subperm l :=
  ((List.take_sublist _ _).subperm).trans (sortByScoreDesc_perm l).subperm

lemma nodup_map_of_subperm {α β : Type} (f : α → β) {l₁ l₂ : List α}
    (h : l₁.Subperm l₂) (hn : (l₂.map f).Nodup) : (l₁.map f).Nodup := by
  obtain ⟨l, hperm, hsub⟩ := h
  exact ((hperm.map f).nodup_iff).mp (List.Nodup.sublist (hsub.map f) hn)

lemma count_flatMap {α β : Type} [BEq β] (x : β) (l : List α) (g : α → List β) :
    List.count x (l.flatMap g) = (l.map (fun a => List.count x (g a))).sum := by
  induction l with
  | nil => simp
  | cons a l ih => simp [List.flatMap_cons, List.count_append, ih]

lemma sum_le_of_single {c : String → Nat} {langs : List String}
    (hnd : langs.Nodup) (l₀ : String) (h0 : ∀ l, l ≠ l₀ → c l = 0) :
    (langs.map c).sum ≤ c l₀ := by
  induction langs with
  | nil => simp
  | cons a langs ih =>
    rw [List.map_cons, List.sum_cons]
    have hnd' := List.nodup_cons.mp hnd
    by_cases ha : a = l₀
    · subst ha
      have hz : (langs.map c).sum = 0 := by
        apply List.sum_eq_zero
        intro x hx
        obtain ⟨l, hl, rfl⟩ := List.mem_map.mp hx
        exact h0 l (fun he => hnd'.1 (he ▸ hl))
      omega
    · rw [h0 a ha]
      have := ih hnd'.2
      omega

lemma diversePicks_subperm (N : Nat) (ps : List Scored) :
    (diversePicks N ps).Subperm ps := by
  rw [List.subperm_ext_iff]
  intro x hx
  have hcount : List.count x (diversePicks N ps) =
      ((languagesOf ps).map (fun lang => List.count x
        (if 0 < allocation N ps lang then
          (sortByScoreDesc (langGroup ps lang)).take (allocation N ps lang)
         else []))).sum := by
    unfold diversePicks
    exact count_flatMap x _ _
  have hle : ∀ lang, List.count x
      (if 0 < allocation N ps lang then
        (sortByScoreDesc (langGroup ps lang)).take (allocation N ps lang)
       else []) ≤ List.count x (langGroup ps lang) := by
    intro lang
    split
    · exact (take_sortByScoreDesc_subperm _ _).count_le x
    · simp
  have hzero : ∀ lang, lang ≠ langOf x → List.count x
      (if 0 < allocation N ps lang then
        (sortByScoreDesc (langGroup ps lang)).take (allocation N ps lang)
       else []) = 0 := by
    intro lang hne
    have hnm : x ∉ langGroup ps lang := by
      intro hmem
      exact hne ((mem_langGroup.mp hmem).2).symm
    have h0 : List.count x (langGroup ps lang) = 0 := List.count_eq_zero.mpr hnm
    have := hle lang
    omega
  rw [hcount]
  calc ((languagesOf ps).map (fun lang => List.count x
          (if 0 < allocation N ps lang then
            (sortByScoreDesc (langGroup ps lang)).take (allocation N ps lang)
           else []))).sum
      ≤ List.count x
          (if 0 < allocation N ps (langOf x) then
            (sortByScoreDesc (langGroup ps (langOf x))).take
              (allocation N ps (langOf x))
           else []) :=
        sum_le_of_single (languagesOf_nodup ps) (langOf x) hzero
    _ ≤ List.count x (langGroup ps (langOf x)) := hle _
    _ ≤ List.count x ps := (List.filter_sublist ps).count_le x

lemma fillPicks_subperm (N : Nat) (ps : List Scored) :
    (fillPicks N ps).Subperm ps :=
  (take_sortByScoreDesc_subperm _ _).trans (List.filter_sublist ps).subperm

lemma mem_fillPicks_not_selected {N : Nat} {ps : List Scored} {s : Scored}
    (h : s ∈ fillPicks N ps) :
    s.proj.url ∉ (diversePicks N ps).map (fun q => q.proj.url) := by
  unfold fillPicks at h
  have h1 := (List.take_sublist _ _).subset h
  rw [sortByScoreDesc, List.mem_mergeSort, List.mem_filter] at h1
  have h2 := h1.2
  rw [Bool.not_eq_true'] at h2
  simp at h2
  intro hmem
  obtain ⟨q, hq, he⟩ := List.mem_map.mp hmem
  exact h2 q hq he

lemma mem_ensureDiversity {N : Nat} {ps : List Scored} {s : Scored}
    (h : s ∈ ensureDiversity N ps) : s ∈ ps := by
  unfold ensureDiversity at h
  split at h
  · simp at h
  · rw [sortByScoreDesc, List.mem_mergeSort, List.mem_append] at h
    rcases h with h | h
    · exact (diversePicks_subperm N ps).subset h
    · exact (fillPicks_subperm N ps).subset h

lemma ensureDiversity_ne_nil {N : Nat} {ps : List Scored} (h : ps ≠ [])
    (hN : 1 ≤ N) : ensureDiversity N ps ≠ [] := by
  have hlangs : languagesOf ps ≠ [] := languagesOf_ne_nil h
  have hmain : ∃ lang ∈ languagesOf ps, 0 < allocation N ps lang := by
    by_cases hcase : (languagesOf ps).length ≤ N
    · refine ⟨(languagesOf ps).head hlangs, List.head_mem hlangs, ?_⟩
      unfold allocation
      rw [if_pos hcase]
      exact lt_of_lt_of_le Nat.zero_lt_one (le_max_left _ _)
    · push_neg at hcase
      have hlperm : (langsByStars ps).Perm (languagesOf ps) :=
        List.mergeSort_perm _ _
      have hbs : langsByStars ps ≠ [] := by
        intro hc
        have hl := hlperm.length_eq
        rw [hc] at hl
        exact hlangs (List.eq_nil_of_length_eq_zero hl.symm)
      obtain ⟨m, hm⟩ : ∃ m, N = m + 1 := ⟨N - 1, by omega⟩
      cases hls : langsByStars ps with
      | nil => exact absurd hls hbs
      | cons a t =>
        refine ⟨a, hlperm.subset (hls ▸ List.mem_cons_self a t), ?_⟩
        unfold allocation
        rw [if_neg (by omega), if_pos ?_]
        · norm_num
        · rw [hls, hm, List.take_succ_cons]
          exact List.mem_cons_self _ _
  obtain ⟨lang, hmem, hpos⟩ := hmain
  have hgrp : langGroup ps lang ≠ [] := by
    obtain ⟨s, hs, hsl⟩ := mem_languagesOf.mp hmem
    exact List.ne_nil_of_mem (mem_langGroup.mpr ⟨hs, hsl⟩)
  have hsort : sortByScoreDesc (langGroup ps lang) ≠ [] := by
    intro hc
    have hl := (sortByScoreDesc_perm (langGroup ps lang)).length_eq
    rw [hc] at hl
    exact hgrp (List.eq_nil_of_length_eq_zero hl.symm)
  have htake : (sortByScoreDesc (langGroup ps lang)).take (allocation N ps lang)
      ≠ [] := by
    simp only [ne_eq, List.take_eq_nil_iff, not_or]
    exact ⟨by omega, hsort⟩
  obtain ⟨z, hz⟩ := List.exists_mem_of_ne_nil _ htake
  have hzd : z ∈ diversePicks N ps := by
    unfold diversePicks
    rw [List.mem_flatMap]
    exact ⟨lang, hmem, by rw [if_pos hpos]; exact hz⟩
  unfold ensureDiversity
  rw [if_neg (by simpa [List.isEmpty_iff] using h)]
  intro hc
  have hl := (sortByScoreDesc_perm (diversePicks N ps ++ fillPicks N ps)).length_eq
  rw [hc, List.length_nil, List.length_append] at hl
  have hdn : diversePicks N ps = [] :=
    List.eq_nil_of_length_eq_zero (by omega)
  rw [hdn] at hzd
  simp at hzd

lemma ensureDiversity_nodup {N : Nat} {ps : List Scored}
    (h : (ps.map (fun s => s.proj.url)).Nodup) :
    ((ensureDiversity N ps).map (fun s => s.proj.url)).Nodup := by
  unfold ensureDiversity
  split
  · simp
  · have hperm := (sortByScoreDesc_perm (diversePicks N ps ++ fillPicks N ps)).map
      (fun s => s.proj.url)
    rw [hperm.nodup_iff, List.map_append, List.nodup_append]
    refine ⟨nodup_map_of_subperm _ (diversePicks_subperm N ps) h,
      nodup_map_of_subperm _ (fillPicks_subperm N ps) h, ?_⟩
    intro u hud huf
    obtain ⟨s, hs, rfl⟩ := List.mem_map.mp huf
    exact (mem_fillPicks_not_selected hs) hud

/-! ### The orchestrated run -/

lemma processProjects_ok_of_ne_nil {now : Int} {cfg : Config}
    {projects : List Project}
    (hne : ensureDiversity cfg.maxResults
      (stageB now cfg.minStars (filterProjects now projects)) ≠ []) :
    processProjects now cfg projects = Except.ok
      ((ensureDiversity cfg.maxResults
        (stageB now cfg.minStars (filterProjects now projects))).take
          cfg.maxResults) := by
  unfold processProjects
  cases he : ensureDiversity cfg.maxResults
      (stageB now cfg.minStars (filterProjects now projects)) with
  | nil => exact absurd he hne
  | cons a l => simp [he, pyMean]

lemma processProjects_ok_inv {now : Int} {cfg : Config} {projects : List Project}
    {out : List Scored} (hok : processProjects now cfg projects = Except.ok out) :
    out = (ensureDiversity cfg.maxResults
      (stageB now cfg.minStars (filterProjects now projects))).take
        cfg.maxResults := by
  unfold processProjects at hok
  cases hm : pyMean ((ensureDiversity cfg.maxResults
      (stageB now cfg.minStars (filterProjects now projects))).map
        (fun s => s.qualityScore)) with
  | error e => simp [hm] at hok
  | ok v =>
    simp [hm] at hok
    exact hok.symm

/-- C4 (amended): the relaxed pass replaces the strict result exactly when the
strict Stage-B result has fewer than 3 elements, is applied to the Stage-A
output (so Stage B always yields a sublist of the Stage-A output), and happens
once; and the run raises no error provided the surviving Stage-B list is
non-empty and `max_results ≥ 1` — the empty case is forced out by the
unguarded average-quality computation (see the counterexample). -/
theorem C4_amended (now : Int) (cfg : Config) (projects : List Project)
    (hne : stageB now cfg.minStars (filterProjects now projects) ≠ [])
    (hN : 1 ≤ cfg.maxResults) :
    stageB now cfg.minStars (filterProjects now projects) =
      (if (applyCustomFilters now (filterProjects now projects)
            (some strictFilters)).length < 3
       then applyCustomFilters now (filterProjects now projects)
         (some (relaxedFilters cfg.minStars))
       else applyCustomFilters now (filterProjects now projects)
         (some strictFilters)) ∧
    (stageB now cfg.minStars (filterProjects now projects)).Sublist
      (filterProjects now projects) ∧
    ∃ out, processProjects now cfg projects = Except.ok out :=
  ⟨rfl, stageB_sublist _ _ _,
    ⟨_, processProjects_ok_of_ne_nil (ensureDiversity_ne_nil hne hN)⟩⟩

/-- C4 counterexample: a run whose Stage-A survivor has no description: the
strict result is empty (fewer than 3), the relaxation fires, the relaxed
result is still empty (fewer than 3), and then `search_repositories` raises
`StatisticsError` from the unguarded average-quality computation — so a run
with a relaxed result of fewer than 3 elements can raise. -/
theorem C4_counterexample :
    (applyCustomFilters 0 (filterProjects 0 [noDescProject])
      (some strictFilters)).length < 3 ∧
    (applyCustomFilters 0 (filterProjects 0 [noDescProject])
      (some (relaxedFilters 100))).length < 3 ∧
    processProjects 0 (Config.mk 100 10) [noDescProject] =
      Except.error PyErr.statisticsError := by
  have hsc : calculateProjectScore 0 noDescProject = 95 := by
    norm_num [calculateProjectScore, activityScore, growthScore,
      maintenanceScores, maturityScore, daysBetween, noDescProject, richProject,
      show Int.fdiv 63072000 86400 = 730 from rfl,
      show Int.fdiv 0 86400 = 0 from rfl]
  have hr : round2 95 = 95 := by norm_num [round2, roundHalfEven]
  have h1 : filterProjects 0 [noDescProject] = [⟨noDescProject, 95⟩] := by
    norm_num [filterProjects, stageASurvivors, hsc, hr, List.mergeSort,
      List.filterMap_cons, List.filterMap_nil]
  have h2s : applyCustomFilters 0 [⟨noDescProject, 95⟩] (some strictFilters)
      = [] := by
    norm_num [applyCustomFilters, strictFilters, noDescProject, richProject]
  have h2r : applyCustomFilters 0 [⟨noDescProject, 95⟩]
      (some (relaxedFilters 100)) = [] := by
    norm_num [applyCustomFilters, relaxedFilters, noDescProject, richProject]
  have h3 : stageB 0 100 [⟨noDescProject, 95⟩] = [] := by
    simp [stageB, h2s, h2r]
  refine ⟨by rw [h1, h2s]; norm_num, by rw [h1, h2r]; norm_num, ?_⟩
  simp [processProjects, h1, h3, ensureDiversity, pyMean]

/-- C4 witness: the amended theorem evaluated on a single rich candidate whose
strict Stage-B result is empty, so the relaxed branch fires and the run
returns successfully. -/
theorem C4_witness :
    stageB 0 (Config.mk 100 10).minStars (filterProjects 0 [richProject]) =
      (if (applyCustomFilters 0 (filterProjects 0 [richProject])
            (some strictFilters)).length < 3
       then applyCustomFilters 0 (filterProjects 0 [richProject])
         (some (relaxedFilters (Config.mk 100 10).minStars))
       else applyCustomFilters 0 (filterProjects 0 [richProject])
         (some strictFilters)) ∧
    (stageB 0 (Config.mk 100 10).minStars
      (filterProjects 0 [richProject])).Sublist (filterProjects 0 [richProject]) ∧
    ∃ out, processProjects 0 (Config.mk 100 10) [richProject] = Except.ok out := by
  refine C4_amended 0 (Config.mk 100 10) [richProject] ?_ (by norm_num)
  show stageB 0 100 (filterProjects 0 [richProject]) ≠ []
  have hsc : calculateProjectScore 0 richProject = 96 := by
    norm_num [calculateProjectScore, activityScore, growthScore,
      maintenanceScores, maturityScore, daysBetween, richProject,
      show Int.fdiv 63072000 86400 = 730 from rfl,
      show Int.fdiv 0 86400 = 0 from rfl,
      show ("aaaaaaaaaaaaaaaaaaaa" : String).length = 20 from rfl]
  have hr : round2 96 = 96 := by norm_num [round2, roundHalfEven]
  have h1 : filterProjects 0 [richProject] = [⟨richProject, 96⟩] := by
    norm_num [filterProjects, stageASurvivors, hsc, hr, List.mergeSort,
      List.filterMap_cons, List.filterMap_nil]
  have h2s : applyCustomFilters 0 [⟨richProject, 96⟩] (some strictFilters)
      = [] := by
    norm_num [applyCustomFilters, strictFilters, richProject,
      show ("aaaaaaaaaaaaaaaaaaaa" : String).length = 20 from rfl]
  have h2r : applyCustomFilters 0 [⟨richProject, 96⟩]
      (some (relaxedFilters 100)) = [⟨richProject, 96⟩] := by
    norm_num [applyCustomFilters, relaxedFilters, richProject]
  have h3 : stageB 0 100 [⟨richProject, 96⟩] = [⟨richProject, 96⟩] := by
    simp [stageB, h2s, h2r]
  rw [h1, h3]
  simp

/-! ### Output invariants of the run -/

lemma filterProjects_map_url_nodup {now : Int} {minScore : ℚ} {ps : List Project}
    (hnd : (ps.map (fun p => p.url)).Nodup) :
    ((filterProjects now ps minScore).map (fun s => s.proj.url)).Nodup := by
  have hperm := (List.mergeSort_perm (stageASurvivors now minScore ps)
    filterLe).map (fun s => s.proj.url)
  rw [filterProjects, hperm.nodup_iff]
  have heq : (stageASurvivors now minScore ps).map (fun s => s.proj.url) =
      ((stageASurvivors now minScore ps).map (fun s => s.proj)).map
        (fun p => p.url) := by
    rw [List.map_map]
    rfl
  rw [heq]
  exact List.Nodup.sublist
    ((stageASurvivors_map_proj_sublist now minScore ps).map _) hnd

/-- C2 (amended): whenever the run returns a final list, it unconditionally
has length at most `max_results` and contains only records present in the
fetched candidate list; and provided the fetched candidates have
pairwise-distinct urls, the final list has pairwise-distinct urls — that one
clause needs the proviso because the selection does not deduplicate
candidates that arrive duplicated. -/
theorem C2_amended (now : Int) (cfg : Config) (projects : List Project)
    (out : List Scored) (hok : processProjects now cfg projects = Except.ok out) :
    out.length ≤ cfg.maxResults ∧
    (∀ s ∈ out, s.proj ∈ projects) ∧
    ((projects.map (fun p => p.url)).Nodup →
      (out.map (fun s => s.proj.url)).Nodup) := by
  have hout := processProjects_ok_inv hok
  subst hout
  refine ⟨?_, ?_, ?_⟩
  · rw [List.length_take]
    exact min_le_left _ _
  · intro s hs
    exact mem_filterProjects_proj ((stageB_sublist _ _ _).subset
      (mem_ensureDiversity ((List.take_sublist _ _).subset hs)))
  · intro hnd
    have h1 := @filterProjects_map_url_nodup now 60 projects hnd
    have h2 : ((stageB now cfg.minStars (filterProjects now projects)).map
        (fun s => s.proj.url)).Nodup :=
      List.Nodup.sublist ((stageB_sublist _ _ _).map _) h1
    have h3 := ensureDiversity_nodup (N := cfg.maxResults) h2
    exact List.Nodup.sublist ((List.take_sublist _ _).map _) h3

/-- The response of a run whose fetch returned the same repository twice. -/
def dupResponse : HttpResponse :=
  { status := 200, rateLimitReset := none,
    items := [rawOf richProject, rawOf richProject] }

/-- C2 counterexample: when the fetched candidate list contains the same
record twice, `search_repositories` returns it twice — two entries of the
final list share the same url, so url-distinctness fails without an
assumption on the fetch. -/
theorem C2_counterexample :
    searchRepositories 0 (Config.mk 100 2) dupResponse =
      Except.ok [⟨richProject, 96⟩, ⟨richProject, 96⟩] ∧
    ¬ (([⟨richProject, 96⟩, ⟨richProject, 96⟩] : List Scored).map
        (fun s => s.proj.url)).Nodup := by
  constructor
  · have hstep : searchRepositories 0 (Config.mk 100 2) dupResponse =
        processProjects 0 (Config.mk 100 2) [richProject, richProject] := rfl
    rw [hstep]
    have hsc : calculateProjectScore 0 richProject = 96 := by
      norm_num [calculateProjectScore, activityScore, growthScore,
        maintenanceScores, maturityScore, daysBetween, richProject,
        show Int.fdiv 63072000 86400 = 730 from rfl,
        show Int.fdiv 0 86400 = 0 from rfl,
        show ("aaaaaaaaaaaaaaaaaaaa" : String).length = 20 from rfl]
    have hr : round2 96 = 96 := by norm_num [round2, roundHalfEven]
    have h1 : filterProjects 0 [richProject, richProject] =
        [⟨richProject, 96⟩, ⟨richProject, 96⟩] := by
      norm_num [filterProjects, stageASurvivors, hsc, hr, List.mergeSort,
        List.filterMap_cons, List.filterMap_nil, filterLe]
    have h2s : applyCustomFilters 0 [⟨richProject, 96⟩, ⟨richProject, 96⟩]
        (some strictFilters) = [] := by
      norm_num [applyCustomFilters, strictFilters, richProject,
        show ("aaaaaaaaaaaaaaaaaaaa" : String).length = 20 from rfl]
    have h2r : applyCustomFilters 0 [⟨richProject, 96⟩, ⟨richProject, 96⟩]
        (some (relaxedFilters 100)) = [⟨richProject, 96⟩, ⟨richProject, 96⟩] := by
      norm_num [applyCustomFilters, relaxedFilters, richProject]
    have h3 : stageB 0 100 [⟨richProject, 96⟩, ⟨richProject, 96⟩] =
        [⟨richProject, 96⟩, ⟨richProject, 96⟩] := by
      simp [stageB, h2s, h2r]
    have h4 : ensureDiversity 2 [⟨richProject, 96⟩, ⟨richProject, 96⟩] =
        [⟨richProject, 96⟩, ⟨richProject, 96⟩] := by
      norm_num [ensureDiversity, diversePicks, fillPicks, sortByScoreDesc,
        allocation, languagesOf, langGroup, langsByStars, groupStars, langOf,
        richProject, List.mergeSort]
    simp [processProjects, h1, h3, h4, pyMean]
  · simp [richProject]

/-- C2 witness: the amended theorem evaluated on a successful single-candidate
run with distinct input urls. -/
theorem C2_witness :
    ([⟨richProject, 96⟩] : List Scored).length ≤ (Config.mk 100 10).maxResults ∧
    (∀ s ∈ ([⟨richProject, 96⟩] : List Scored), s.proj ∈ [richProject]) ∧
    (([⟨richProject, 96⟩] : List Scored).map (fun s => s.proj.url)).Nodup := by
  have hsc : calculateProjectScore 0 richProject = 96 := by
    norm_num [calculateProjectScore, activityScore, growthScore,
      maintenanceScores, maturityScore, daysBetween, richProject,
      show Int.fdiv 63072000 86400 = 730 from rfl,
      show Int.fdiv 0 86400 = 0 from rfl,
      show ("aaaaaaaaaaaaaaaaaaaa" : String).length = 20 from rfl]
  have hr : round2 96 = 96 := by norm_num [round2, roundHalfEven]
  have h1 : filterProjects 0 [richProject] = [⟨richProject, 96⟩] := by
    norm_num [filterProjects, stageASurvivors, hsc, hr, List.mergeSort,
      List.filterMap_cons, List.filterMap_nil]
  have h2s : applyCustomFilters 0 [⟨richProject, 96⟩] (some strictFilters)
      = [] := by
    norm_num [applyCustomFilters, strictFilters, richProject,
      show ("aaaaaaaaaaaaaaaaaaaa" : String).length = 20 from rfl]
  have h2r : applyCustomFilters 0 [⟨richProject, 96⟩]
      (some (relaxedFilters 100)) = [⟨richProject, 96⟩] := by
    norm_num [applyCustomFilters, relaxedFilters, richProject]
  have h3 : stageB 0 100 [⟨richProject, 96⟩] = [⟨richProject, 96⟩] := by
    simp [stageB, h2s, h2r]
  have h4 : ensureDiversity 10 [⟨richProject, 96⟩] = [⟨richProject, 96⟩] := by
    norm_num [ensureDiversity, diversePicks, fillPicks, sortByScoreDesc,
      allocation, languagesOf, langGroup, langsByStars, groupStars, langOf,
      richProject, List.mergeSort]
  have hok : processProjects 0 (Config.mk 100 10) [richProject] =
      Except.ok [⟨richProject, 96⟩] := by
    simp [processProjects, h1, h3, h4, pyMean]
  have h := C2_amended 0 (Config.mk 100 10) [richProject] [⟨richProject, 96⟩] hok
  exact ⟨h.1, h.2.1, h.2.2 (by simp [richProject])⟩

/-! ### Empty runs, rate limiting, malformed candidates -/

/-- C3: code bug — on a run whose fetch returns zero items, every stage
produces the empty list and the average-quality log line calls
`statistics.mean` on an empty list, raising `StatisticsError` instead of
returning the empty list as the spec requires. -/
theorem C3_code_bug :
    searchRepositories 0 (Config.mk 100 10)
      { status := 200, rateLimitReset := none, items := [] } =
      Except.error PyErr.statisticsError := by
  have h0 : filterProjects 0 [] = [] := by
    simp [filterProjects, stageASurvivors, List.mergeSort]
  have h1 : stageB 0 100 [] = [] := by
    simp [stageB, applyCustomFilters, strictFilters, relaxedFilters]
  have hstep : searchRepositories 0 (Config.mk 100 10)
      { status := 200, rateLimitReset := none, items := [] } =
      processProjects 0 (Config.mk 100 10) [] := rfl
  rw [hstep]
  simp [processProjects, h0, h1, ensureDiversity, pyMean]

/-- C8: code bug — on a 403 response without the `X-RateLimit-Reset` header,
`int(None)` raises `TypeError` before the distinguished `RuntimeError` can be
raised; with the header present the distinguished `RuntimeError` is raised
(with a constant message — the reset time goes only to the log); and every 403
aborts the run after the single request, never a retry. -/
theorem C8_code_bug :
    rateLimitCheck 403 none = Except.error (PyErr.typeError
      "int() argument must be a string, a bytes-like object or a real number, not NoneType") ∧
    (∀ t : Int, rateLimitCheck 403 (some t) =
      Except.error (PyErr.runtimeError "GitHub API rate limited")) ∧
    (∀ (now : Int) (cfg : Config) (hdr : Option Int) (items : List RawItem),
      ∃ e, searchRepositories now cfg
        { status := 403, rateLimitReset := hdr, items := items } =
          Except.error e) := by
  refine ⟨rfl, fun t => rfl, fun now cfg hdr items => ?_⟩
  cases hdr with
  | none => exact ⟨_, rfl⟩
  | some t => exact ⟨_, rfl⟩

/-- C9: code bug — a fetched batch whose second record is missing the
`full_name` key aborts the entire run with a `KeyError` (losing the preceding
well-formed record too), instead of skipping the malformed record, logging,
and scoring the rest. -/
theorem C9_code_bug :
    searchRepositories 0 (Config.mk 100 10)
      { status := 200, rateLimitReset := none,
        items := [rawOf richProject, badItem] } =
      Except.error (PyErr.keyError "full_name") := rfl

/-! ### Sortedness facts for the diversity stage -/

lemma sortByScoreDesc_pairwise (l : List Scored) :
    List.Pairwise (fun a b => b.qualityScore ≤ a.qualityScore)
      (sortByScoreDesc l) := by
  refine (List.sorted_mergeSort ?_ ?_ l).imp ?_
  · intro a b c hab hbc
    simp only [decide_eq_true_eq] at *
    exact le_trans hbc hab
  · intro a b
    simp only [Bool.or_eq_true, decide_eq_true_eq]
    exact (le_total b.qualityScore a.qualityScore)
  · intro a b h
    simpa using h

lemma langsByStars_pairwise (ps : List Scored) :
    List.Pairwise (fun a b => groupStars ps b ≤ groupStars ps a)
      (langsByStars ps) := by
  refine (List.sorted_mergeSort ?_ ?_ (languagesOf ps)).imp ?_
  · intro a b c hab hbc
    simp only [decide_eq_true_eq] at *
    exact le_trans hbc hab
  · intro a b
    simp only [Bool.or_eq_true, decide_eq_true_eq]
    exact (le_total (groupStars ps b) (groupStars ps a))
  · intro a b h
    simpa using h

/-- C6: the characterisation of `_ensure_diversity` on non-empty input: the
output is the per-language picks plus the url-disjoint fill, sorted by score;
with at most `N` groups every group is allocated `max(1, N // group_count)`
slots; with more than `N` groups exactly the `N` languages ranked highest by
total stars get one slot (each selected group's total stars dominating every
unselected group's); each group contributes its top-allocated records by score
descending; the fill only adds records whose url was not already selected, up
to the remaining slots; and the final output is sorted by score descending. -/
theorem C6_theorem (N : Nat) (ps : List Scored) (hne : ps ≠ []) :
    ensureDiversity N ps = sortByScoreDesc (diversePicks N ps ++ fillPicks N ps) ∧
    ((languagesOf ps).length ≤ N →
      ∀ lang, allocation N ps lang = max 1 (N / (languagesOf ps).length)) ∧
    (N < (languagesOf ps).length →
      (∀ lang, allocation N ps lang =
        if lang ∈ (langsByStars ps).take N then 1 else 0) ∧
      ∀ lang₁ ∈ (langsByStars ps).take N, ∀ lang₂ ∈ languagesOf ps,
        lang₂ ∉ (langsByStars ps).take N →
          groupStars ps lang₂ ≤ groupStars ps lang₁) ∧
    diversePicks N ps = (languagesOf ps).flatMap (fun lang =>
      (sortByScoreDesc (langGroup ps lang)).take (allocation N ps lang)) ∧
    (∀ s ∈ fillPicks N ps,
      s.proj.url ∉ (diversePicks N ps).map (fun q => q.proj.url)) ∧
    (fillPicks N ps).length ≤ N - (diversePicks N ps).length ∧
    List.Pairwise (fun a b => b.qualityScore ≤ a.qualityScore)
      (ensureDiversity N ps) := by
  refine ⟨?_, ?_, ?_, ?_, fun s hs => mem_fillPicks_not_selected hs, ?_, ?_⟩
  · unfold ensureDiversity
    rw [if_neg (by simpa [List.isEmpty_iff] using hne)]
  · intro hle lang
    unfold allocation
    rw [if_pos hle]
  · intro hgt
    constructor
    · intro lang
      unfold allocation
      rw [if_neg (by omega)]
    · intro l1 h1 l2 h2 hn2
      have hp := langsByStars_pairwise ps
      rw [← List.take_append_drop N (langsByStars ps), List.pairwise_append] at hp
      refine hp.2.2 l1 h1 l2 ?_
      have hmem : l2 ∈ langsByStars ps :=
        (List.mergeSort_perm _ _).mem_iff.mpr h2
      rw [← List.take_append_drop N (langsByStars ps), List.mem_append] at hmem
      exact hmem.resolve_left hn2
  · unfold diversePicks
    congr 1
    funext lang
    split
    · rfl
    · rename_i hnp
      have hz : allocation N ps lang = 0 := by omega
      rw [hz, List.take_zero]
  · unfold fillPicks
    rw [List.length_take]
    exact min_le_left _ _
  · unfold ensureDiversity
    split
    · simp
    · exact sortByScoreDesc_pairwise _

/-- A two-language sample input for the diversity selector. -/
def divSample : List Scored :=
  [⟨{ emptyProject with language := some "Python", stars := 5 }, 1⟩,
   ⟨{ emptyProject with url := "u2", language := some "C", stars := 3 }, 2⟩]

/-- C6 witness: the characterisation applied to a concrete two-language input
with target 1, exercising the more-groups-than-slots branch. -/
theorem C6_witness :
    ensureDiversity 1 divSample =
      sortByScoreDesc (diversePicks 1 divSample ++ fillPicks 1 divSample) ∧
    ((languagesOf divSample).length ≤ 1 →
      ∀ lang, allocation 1 divSample lang =
        max 1 (1 / (languagesOf divSample).length)) ∧
    (1 < (languagesOf divSample).length →
      (∀ lang, allocation 1 divSample lang =
        if lang ∈ (langsByStars divSample).take 1 then 1 else 0) ∧
      ∀ lang₁ ∈ (langsByStars divSample).take 1,
        ∀ lang₂ ∈ languagesOf divSample,
          lang₂ ∉ (langsByStars divSample).take 1 →
            groupStars divSample lang₂ ≤ groupStars divSample lang₁) ∧
    diversePicks 1 divSample = (languagesOf divSample).flatMap (fun lang =>
      (sortByScoreDesc (langGroup divSample lang)).take
        (allocation 1 divSample lang)) ∧
    (∀ s ∈ fillPicks 1 divSample,
      s.proj.url ∉ (diversePicks 1 divSample).map (fun q => q.proj.url)) ∧
    (fillPicks 1 divSample).length ≤ 1 - (diversePicks 1 divSample).length ∧
    List.Pairwise (fun a b => b.qualityScore ≤ a.qualityScore)
      (ensureDiversity 1 divSample) :=
  C6_theorem 1 divSample (by simp [divSample])
